/-
  Verification of the directory-to-archive packaging engine of
  deploy-cloud-functions (src/util.ts): zipDir, getGcloudIgnores and
  formatEntry, together with the promise/event machinery of zipDir.

  The embedding is shallow: the JavaScript functions are translated into
  Lean functions over an explicit filesystem model, with the synchronous
  filesystem effects of a zipDir call recorded in a trace, and the
  asynchronous part of zipDir (the event handlers registered on the
  archive writer and on the output stream, and the promise they settle)
  modelled as a step function on a promise state.
-/
import Mathlib

namespace GCF

/-! ## Filesystem model

`fs.existsSync` in the source answers true for both files and
directories, so the model carries both: a list of (path, contents) pairs
for regular files and a list of directory paths. -/

/-- A snapshot of the filesystem visible to one zipDir call. -/
structure FS where
  files : List (String × String)
  dirs : List String
deriving DecidableEq, Repr

/-- Model of Node `fs.existsSync`: true when the path is a directory or a
regular file of the snapshot. -/
def FS.existsSync (fs : FS) (p : String) : Bool :=
  fs.dirs.contains p || (fs.files.lookup p).isSome

/-- Model of Node `fs.readFileSync` with utf-8 encoding: the contents of
the regular file at the path, or a thrown error (`Except.error`) when the
path is not a regular file (ENOENT / EISDIR / permission fault). -/
def FS.readFileSync (fs : FS) (p : String) : Except String String :=
  match fs.files.lookup p with
  | some c => Except.ok c
  | none => Except.error ("EISDIR/ENOENT: could not read " ++ p)

/-- Model of `path.posix.join(dir, file)` for the already-normalised
arguments used in util.ts. -/
def pathPosixJoin (a b : String) : String := a ++ "/" ++ b

/-- The path of the ignore file read by getGcloudIgnores:
`path.posix.join(dir, '.gcloudignore')`. -/
def gcloudIgnorePath (dir : String) : String := pathPosixJoin dir ".gcloudignore"

/-! ## String helpers of the source

`getGcloudIgnores` splits the file contents on the regex `/\r?\n/` and
trims every line with JavaScript `String.prototype.trim`. -/

/-- Split a character list at every `\n` (the `\n` of the regex
`/\r?\n/`; the optional preceding `\r` is removed afterwards by
`splitRN`). Always returns at least one (possibly empty) piece, exactly
like `String.prototype.split`. -/
def splitNL : List Char → List (List Char)
  | [] => [[]]
  | c :: rest =>
    if c = '\n' then [] :: splitNL rest
    else
      match splitNL rest with
      | [] => [[c]]
      | l :: ls => (c :: l) :: ls

/-- Remove one trailing carriage return from a line: the `\r?` part of
the separator regex `/\r?\n/`. -/
def dropTrailingCR (l : List Char) : List Char :=
  if l.getLast? = some '\r' then l.dropLast else l

/-- Model of `content.split(/\r?\n/)`: split on `\n`, then drop the
carriage return the separator would have consumed from each piece. -/
def splitRN (s : String) : List String :=
  (splitNL s.data).map (fun l => String.mk (dropTrailingCR l))

/-- The whitespace characters relevant to JavaScript
`String.prototype.trim` on the ASCII inputs of this program. -/
def jsIsSpace (c : Char) : Bool :=
  c = ' ' || c = '\t' || c = '\n' || c = '\r'

/-- Model of JavaScript `String.prototype.trim`: drop whitespace from
both ends (right end first, then left end — the order is immaterial). -/
def jsTrim (s : String) : String :=
  String.mk ((s.data.reverse.dropWhile jsIsSpace).reverse.dropWhile jsIsSpace)

/-! ## Synchronous filesystem effects of a zipDir call -/

/-- One synchronous effect of the body of zipDir (util.ts lines 48-88),
in source order. -/
inductive FSEffect where
  /-- An `fs.existsSync` probe of a path. -/
  | existsCheck (p : String)
  /-- An `fs.readFileSync` of a path. -/
  | readFile (p : String)
  /-- `fs.createWriteStream(outputPath)`: the first destination I/O. -/
  | createWriteStream (p : String)
  /-- `archive.directory(dirPath, false, gIgnoreF)`. -/
  | archiveDirectory (p : String)
  /-- `archive.finalize()`. -/
  | finalizeArchive
deriving DecidableEq, Repr

/-- The number of `readFile` effects in a trace. -/
def countReads (t : List FSEffect) : Nat :=
  t.countP (fun e => match e with | FSEffect.readFile _ => true | _ => false)

/-- getGcloudIgnores (util.ts lines 95-106), instrumented with its
filesystem effects: probe `dir/.gcloudignore`; when absent return the
empty list; when present read it, split on `/\r?\n/` and trim each line.
A read fault is a thrown error. -/
def getGcloudIgnoresT (fs : FS) (dir : String) :
    List FSEffect × Except String (List String) :=
  let p := gcloudIgnorePath dir
  if fs.existsSync p = false then
    ([FSEffect.existsCheck p], Except.ok [])
  else
    match fs.readFileSync p with
    | Except.ok content =>
      ([FSEffect.existsCheck p, FSEffect.readFile p],
        Except.ok ((splitRN content).map jsTrim))
    | Except.error e =>
      ([FSEffect.existsCheck p, FSEffect.readFile p], Except.error e)

/-- The value computed by getGcloudIgnores, without the effect trace. -/
def getGcloudIgnores (fs : FS) (dir : String) : Except String (List String) :=
  (getGcloudIgnoresT fs dir).2

/-! ## formatEntry (util.ts lines 120-126)

JavaScript `||` takes the right operand on any falsy left operand: for
the numeric `mode` that is `undefined` or `0`, for the string fields it
is `undefined` or the empty string. -/

/-- RealEntryData (util.ts lines 111-114): an archive entry with its
optional extended fields. `mode` is the numeric permission field of
Archiver.EntryData. -/
structure RealEntryData where
  name : String
  mode : Option Nat := none
  sourcePath : Option String := none
  type : Option String := none
deriving DecidableEq, Repr

/-- JavaScript `x || d` for an optional number rendered into a template
string: falsy when absent or zero. -/
def jsOrNat (v : Option Nat) (d : String) : String :=
  match v with
  | none => d
  | some n => if n = 0 then d else toString n

/-- JavaScript `x || d` for an optional string: falsy when absent or
empty. -/
def jsOrStr (v : Option String) (d : String) : String :=
  match v with
  | none => d
  | some s => if s = "" then d else s

/-- Model of `s.toUpperCase()[0]` for the strings reaching it here:
`toUpperCase` maps every character through its uppercase form and `[0]`
takes the one-character string at index 0, so the composite is the
uppercased first character (the argument is never empty, since the
falsy-default expression feeding it supplies a non-empty string). -/
def jsToUpperHead (s : String) : String :=
  match s.data with
  | [] => ""
  | c :: _ => String.mk [c.toUpper]

/-- formatEntry: one line `[<TypeInitial>] (<mode>) <name> =>
<sourcePath>`, where the type initial is `(entry.type || 'unknown')
.toUpperCase()[0]`. -/
def formatEntry (entry : RealEntryData) : String :=
  let name := entry.name
  let mode := jsOrNat entry.mode "000"
  let sourcePath := jsOrStr entry.sourcePath "unknown"
  let type := jsToUpperHead (jsOrStr entry.type "unknown")
  "[" ++ type ++ "] (" ++ mode ++ ") " ++ name ++ " => " ++ sourcePath

/-! ## The gitignore matching engine

zipDir delegates pattern matching to the third-party npm package
`ignore` (`ignore().add(rules).ignores(name)`), which is not part of
this repository's sources. It is modelled here from the spec's
description of its contract — gitignore-compatible matching supporting
negation patterns, directory-only patterns, glob wildcards, and
anchored vs. unanchored patterns, where the last matching pattern
decides:
- an empty pattern matches nothing;
- a leading `!` (stripped before matching) re-includes;
- a trailing `/` makes the pattern directory-only: it matches a
  directory (a path with further segments below the match, or a path
  carrying a trailing `/`) but not a plain file of that name;
- a pattern with a `/` at its start or middle is anchored to the root
  (the leading `/` itself is stripped), while a pattern without one may
  match starting at any path segment;
- a match ending at a segment boundary also covers every descendant
  path below it;
- `*` matches any run of non-separator characters within one segment
  and `?` one such character (the globstar `**` is treated as an
  ordinary segment wildcard). -/

/-- Modelled from the spec: the core glob match of the external
gitignore engine, written with an explicit fuel argument so that it is
structurally recursive (every recursive call shrinks the combined length
of pattern and path, so any fuel above that sum gives the match's fixed
point). `*` matches any run of non-separator characters, `?` one
non-separator character, every other character itself. -/
def globMatchF : Nat → List Char → List Char → Bool
  | 0, _, _ => false
  | fuel + 1, ps, cs =>
    match ps, cs with
    | [], [] => true
    | [], _ :: _ => false
    | '*' :: ps2, [] => globMatchF fuel ps2 []
    | '*' :: ps2, c :: cs2 =>
      globMatchF fuel ps2 (c :: cs2) ||
        ((c != '/') && globMatchF fuel ('*' :: ps2) cs2)
    | _ :: _, [] => false
    | '?' :: ps2, c :: cs2 => (c != '/') && globMatchF fuel ps2 cs2
    | p :: ps2, c :: cs2 => (p == c) && globMatchF fuel ps2 cs2

/-- The glob match with enough fuel for its arguments. -/
def globMatch (ps cs : List Char) : Bool :=
  globMatchF (ps.length + cs.length + 1) ps cs

/-- Split a character list at every `/`: the segments of a path or of a
gitignore pattern. Always returns at least one (possibly empty)
piece. -/
def splitSlash : List Char → List (List Char)
  | [] => [[]]
  | c :: rest =>
    if c = '/' then [] :: splitSlash rest
    else
      match splitSlash rest with
      | [] => [[c]]
      | l :: ls => (c :: l) :: ls

/-- Modelled from the spec: match the pattern's segments one-to-one
against the leading segments of the path. Once every pattern segment is
consumed the match has reached a segment boundary, so it succeeds — and
thereby covers every descendant below it — unless the pattern is
directory-only (`dirOnly`), in which case the matched prefix must name a
directory: either path segments remain below it, or the path carried a
trailing slash (`isDir`). -/
def segsMatch (dirOnly : Bool) :
    List (List Char) → List (List Char) → Bool → Bool
  | [], rest, isDir =>
    if dirOnly then (match rest with | [] => isDir | _ :: _ => true) else true
  | _ :: _, [], _ => false
  | p :: ps, s :: ss, isDir => globMatch p s && segsMatch dirOnly ps ss isDir

/-- Modelled from the spec: an unanchored pattern may start matching at
any path segment, so try every suffix of the path's segment list. -/
def anySegsMatch (dirOnly : Bool) (patSegs : List (List Char))
    (isDir : Bool) : List (List Char) → Bool
  | [] => segsMatch dirOnly patSegs [] isDir
  | s :: ss =>
    segsMatch dirOnly patSegs (s :: ss) isDir ||
      anySegsMatch dirOnly patSegs isDir ss

/-- Modelled from the spec: whether one gitignore pattern (already
stripped of any `!`) matches a path. Parses the pattern's trailing `/`
(directory-only), leading `/` (anchored, then stripped), and interior
`/` (anchored); an anchored pattern must match from the first path
segment, an unanchored one from any segment; the empty pattern matches
nothing. A trailing `/` on the path marks a directory entry. -/
def patternMatches (pat : String) (name : String) : Bool :=
  match pat.data with
  | [] => false
  | pcs =>
    let dirOnly := pcs.getLast? == some '/'
    let body := if dirOnly then pcs.dropLast else pcs
    match body with
    | [] => false
    | body =>
      let anchored := (body.head? == some '/') || body.contains '/'
      let body2 := if body.head? == some '/' then body.tail else body
      let patSegs := splitSlash body2
      let isDir := name.data.getLast? == some '/'
      let pathCs := if isDir then name.data.dropLast else name.data
      let pathSegs := splitSlash pathCs
      if anchored then segsMatch dirOnly patSegs pathSegs isDir
      else anySegsMatch dirOnly patSegs isDir pathSegs

/-- Modelled from the spec: the decision of the last rule that matches
the path, scanning the ordered rule list; `some true` from a plain
matching rule, `some false` from a matching negation rule `!pat` (a
leading `!` is stripped before matching). -/
def lastDecision (rules : List String) (name : String) : Option Bool :=
  rules.foldl
    (fun acc rule =>
      match rule.data with
      | '!' :: rest =>
        if patternMatches (String.mk rest) name then some false else acc
      | _ =>
        if patternMatches rule name then some true else acc)
    none

/-- Modelled from the spec: `ignore().add(rules).ignores(name)` of the
external engine — the path is ignored when the last matching rule is not
a negation. -/
def ignores (rules : List String) (name : String) : Bool :=
  (lastDecision rules name).getD false

/-! ## The synchronous body of zipDir (util.ts lines 43-89)

zipDir first probes the source directory and THROWS a synchronous
exception when it is absent — at that point no promise exists. Otherwise
it creates the promise, whose executor runs synchronously: it opens the
destination write stream, registers the entry/warning/error/finish
handlers, loads the gcloudignore rules (calling getGcloudIgnores once,
and a second time when the first result is non-empty, to build the
filter), enqueues the directory and finalizes. An exception thrown
inside the executor rejects the promise. -/

/-- What the promise executor of zipDir set up on success: the output
path captured by the finish handler, and the rules captured by the
filter closure gIgnoreF (`none` when the rule list was empty and no
filter was installed). -/
structure ZipSetup where
  outputPath : String
  rules : Option (List String)
deriving DecidableEq, Repr

/-- Outcome of the synchronous part of a zipDir call. -/
inductive ZipSyncResult where
  /-- A synchronous exception escaped zipDir before any promise was
  created (util.ts line 50). -/
  | thrown (msg : String)
  /-- The promise was created but its executor threw, so the promise is
  rejected with that error. -/
  | rejectedInExecutor (msg : String)
  /-- The executor ran to completion; the promise is pending, to be
  settled by the registered event handlers. -/
  | promised (setup : ZipSetup)
deriving DecidableEq, Repr

/-- The synchronous body of zipDir, with its filesystem effect trace. -/
def zipDirSync (fs : FS) (dirPath outputPath : String) :
    List FSEffect × ZipSyncResult :=
  if fs.existsSync dirPath = false then
    ([FSEffect.existsCheck dirPath],
      ZipSyncResult.thrown ("Unable to find " ++ dirPath))
  else
    let pre := [FSEffect.existsCheck dirPath,
      FSEffect.createWriteStream outputPath]
    let t1 := (getGcloudIgnoresT fs dirPath).1
    match getGcloudIgnores fs dirPath with
    | Except.error e => (pre ++ t1, ZipSyncResult.rejectedInExecutor e)
    | Except.ok rules1 =>
      if 0 < rules1.length then
        let t2 := (getGcloudIgnoresT fs dirPath).1
        match getGcloudIgnores fs dirPath with
        | Except.error e =>
          (pre ++ t1 ++ t2, ZipSyncResult.rejectedInExecutor e)
        | Except.ok rules2 =>
          (pre ++ t1 ++ t2 ++
              [FSEffect.archiveDirectory dirPath, FSEffect.finalizeArchive],
            ZipSyncResult.promised { outputPath := outputPath, rules := some rules2 })
      else
        (pre ++ t1 ++
            [FSEffect.archiveDirectory dirPath, FSEffect.finalizeArchive],
          ZipSyncResult.promised { outputPath := outputPath, rules := none })

/-- The inclusion decision of the filter position of
`archive.directory(dirPath, false, gIgnoreF)`: with no filter installed
every entry is included; with the filter gIgnoreF an entry is included
exactly when `!gIgnore.ignores(file.name)` (util.ts line 79). -/
def filterIncludes (rules : Option (List String)) (name : String) : Bool :=
  match rules with
  | none => true
  | some rs => !(ignores rs name)

/-! ## The event handlers and the promise (util.ts lines 53-67)

The four handlers registered by the executor are the only code that can
settle the zipDir promise. A JavaScript promise settles once: the first
resolve or reject wins and every later settlement attempt is ignored. -/

/-- An event delivered to the handlers of a zipDir call. -/
inductive ZipEvent where
  /-- `archive.on('entry', ...)`: the observer callback, never settles. -/
  | entry (e : RealEntryData)
  /-- `archive.on('warning', (err) => reject(err))`. -/
  | warning (err : String)
  /-- `archive.on('error', (err) => reject(err))`. -/
  | error (err : String)
  /-- `output.on('finish', () => resolve(outputPath))`. -/
  | finish
deriving DecidableEq, Repr

/-- The state of the zipDir promise. -/
inductive PromiseState where
  | pending
  | resolved (v : String)
  | rejected (e : String)
deriving DecidableEq, Repr

/-- One event dispatched to the registered handlers. A settled promise
never changes again. -/
def handleEvent (outputPath : String) (st : PromiseState) (ev : ZipEvent) :
    PromiseState :=
  match st with
  | PromiseState.pending =>
    match ev with
    | ZipEvent.entry _ => PromiseState.pending
    | ZipEvent.warning e => PromiseState.rejected e
    | ZipEvent.error e => PromiseState.rejected e
    | ZipEvent.finish => PromiseState.resolved outputPath
  | st => st

/-- The promise state after a sequence of events, starting pending. -/
def runEvents (outputPath : String) (evs : List ZipEvent) : PromiseState :=
  evs.foldl (handleEvent outputPath) PromiseState.pending

/-! ## Helper lemmas -/

theorem head?_dropWhile_not {α : Type} (p : α → Bool) :
    ∀ (l : List α) (a : α), (l.dropWhile p).head? = some a → p a = false := by
  intro l
  induction l with
  | nil => intro a h; exact absurd h (by simp)
  | cons b l ih =>
    intro a h
    rw [List.dropWhile_cons] at h
    by_cases hb : p b
    · rw [if_pos hb] at h
      exact ih a h
    · rw [if_neg hb] at h
      rw [List.head?_cons] at h
      injection h with h
      rw [← h]
      exact Bool.eq_false_iff.mpr hb

theorem jsTrim_head_not_space (s : String) (a : Char)
    (h : (jsTrim s).data.head? = some a) : jsIsSpace a = false :=
  head?_dropWhile_not jsIsSpace _ a h

theorem jsTrim_getLast_not_space (s : String) (a : Char)
    (h : (jsTrim s).data.getLast? = some a) : jsIsSpace a = false := by
  obtain ⟨t, ht⟩ :=
    List.dropWhile_suffix (l := (s.data.reverse.dropWhile jsIsSpace).reverse) jsIsSpace
  by_cases hR : (jsTrim s).data = []
  · rw [hR] at h; simp at h
  · have h2 : (jsTrim s).data.getLast? =
        ((s.data.reverse.dropWhile jsIsSpace).reverse).getLast? := by
      conv_rhs => rw [← ht]
      exact (List.getLast?_append_of_ne_nil t hR).symm
    rw [h2, List.getLast?_reverse] at h
    exact head?_dropWhile_not jsIsSpace _ a h

theorem jsTrim_all_space (l : List Char) (h : ∀ c ∈ l, jsIsSpace c = true) :
    jsTrim (String.mk l) = "" := by
  have h1 : l.reverse.dropWhile jsIsSpace = [] :=
    List.dropWhile_eq_nil_iff.mpr (fun c hc => by simpa using h c (List.mem_reverse.mp hc))
  simp [jsTrim, h1]

theorem splitNL_ne_nil (cs : List Char) : splitNL cs ≠ [] := by
  cases cs with
  | nil => simp [splitNL]
  | cons c rest =>
    simp only [splitNL]
    split
    · simp
    · split <;> simp

theorem mem_splitNL_all (p : Char → Bool) (cs : List Char)
    (hall : ∀ c ∈ cs, p c = true) :
    ∀ l ∈ splitNL cs, ∀ c ∈ l, p c = true := by
  induction cs with
  | nil =>
    intro l hl
    simp only [splitNL, List.mem_singleton] at hl
    subst hl; simp
  | cons c rest ih =>
    intro l hl
    have hc : p c = true := hall c (List.mem_cons_self c rest)
    have hrest : ∀ x ∈ rest, p x = true :=
      fun x hx => hall x (List.mem_cons_of_mem c hx)
    simp only [splitNL] at hl
    split at hl
    · rcases List.mem_cons.mp hl with h1 | h2
      · subst h1; simp
      · exact ih hrest l h2
    · cases hsp : splitNL rest with
      | nil => exact absurd hsp (splitNL_ne_nil rest)
      | cons m ms =>
        rw [hsp] at hl
        rcases List.mem_cons.mp hl with h1 | h2
        · subst h1
          intro x hx
          rcases List.mem_cons.mp hx with hx1 | hx2
          · subst hx1; exact hc
          · exact ih hrest m (by rw [hsp]; exact List.mem_cons_self m ms) x hx2
        · exact ih hrest l (by rw [hsp]; exact List.mem_cons_of_mem m h2)

theorem dropTrailingCR_all (p : Char → Bool) (l : List Char)
    (h : ∀ c ∈ l, p c = true) : ∀ c ∈ dropTrailingCR l, p c = true := by
  intro c hc
  unfold dropTrailingCR at hc
  split at hc
  · exact h c ((List.dropLast_sublist l).subset hc)
  · exact h c hc

theorem countReads_append (a b : List FSEffect) :
    countReads (a ++ b) = countReads a + countReads b :=
  List.countP_append _ _ _

theorem countReads_getGcloudIgnoresT (fs : FS) (dir : String) :
    countReads (getGcloudIgnoresT fs dir).1 ≤ 1 := by
  simp only [getGcloudIgnoresT]
  split
  · simp [countReads]
  · split <;> simp [countReads, List.countP_cons]

theorem foldl_handleEvent_settled (o : String) (st : PromiseState)
    (h : st ≠ PromiseState.pending) (evs : List ZipEvent) :
    evs.foldl (handleEvent o) st = st := by
  induction evs with
  | nil => rfl
  | cons e rest ih =>
    have hst : handleEvent o st e = st := by
      cases st with
      | pending => exact absurd rfl h
      | resolved v => rfl
      | rejected x => rfl
    rw [List.foldl_cons, hst]
    exact ih

/-! ## Claim theorems -/

/-- C6: formatEntry returns the single-line string
`[<TypeInitial>] (<mode>) <name> => <sourcePath>`; a missing mode renders
as 000, a missing sourcePath as unknown, and a missing type as unknown
with only its first character uppercased — so an entry carrying only a
name formats to exactly `[U] (000) <name> => unknown`. The function is a
pure total Lean function, hence has no side effects and never fails. -/
theorem formatEntry_defaults :
    (∀ name : String,
      formatEntry { name := name } = "[U] (000) " ++ name ++ " => unknown") ∧
    formatEntry ⟨"a.txt", some 420, some "/s/a.txt", some "file"⟩ =
      "[F] (420) a.txt => /s/a.txt" := by
  constructor
  · intro name
    show "[" ++ "U" ++ "] (" ++ "000" ++ ") " ++ name ++ " => " ++ "unknown" =
      "[U] (000) " ++ name ++ " => unknown"
    rw [String.append_assoc]
    rfl
  · rfl

/-- C10: a present-but-zero mode is falsy in JavaScript, so formatEntry
renders it as 000 exactly as if the mode were absent; likewise a
present-but-empty sourcePath or type renders as the corresponding
default. -/
theorem formatEntry_falsy_fields (name : String) (m : Option Nat)
    (sp t : Option String) :
    formatEntry { name := name, mode := some 0, sourcePath := sp, type := t } =
      formatEntry { name := name, mode := none, sourcePath := sp, type := t } ∧
    formatEntry { name := name, mode := m, sourcePath := some "", type := t } =
      formatEntry { name := name, mode := m, sourcePath := none, type := t } ∧
    formatEntry { name := name, mode := m, sourcePath := sp, type := some "" } =
      formatEntry { name := name, mode := m, sourcePath := sp, type := none } := by
  refine ⟨?_, ?_, ?_⟩ <;> simp [formatEntry, jsOrNat, jsOrStr]

/-- C10 witness: at a concrete entry, mode zero renders as 000. -/
theorem formatEntry_falsy_fields_witness :
    formatEntry ⟨"x.js", some 0, some "", some ""⟩ =
      formatEntry ⟨"x.js", none, some "", some ""⟩ :=
  (formatEntry_falsy_fields "x.js" none (some "") (some "")).1

/-- C8: the handler registered for a warning event is extensionally the
same as the handler registered for an error event — from a pending
promise both reject with the emitted error, and a warning is never
merely tolerated. -/
theorem zipDir_warning_rejects_like_error (o : String) (st : PromiseState)
    (e : String) :
    handleEvent o st (ZipEvent.warning e) = handleEvent o st (ZipEvent.error e) ∧
    handleEvent o PromiseState.pending (ZipEvent.warning e) =
      PromiseState.rejected e ∧
    handleEvent o PromiseState.pending (ZipEvent.error e) =
      PromiseState.rejected e := by
  refine ⟨?_, rfl, rfl⟩
  cases st <;> rfl

/-- C8 witness: a concrete warning event rejects the pending promise. -/
theorem zipDir_warning_rejects_like_error_witness :
    handleEvent "/out.zip" PromiseState.pending (ZipEvent.warning "boom") =
      PromiseState.rejected "boom" :=
  (zipDir_warning_rejects_like_error "/out.zip" PromiseState.pending "boom").2.1

/-- C7: whenever the zipDir promise resolves it resolves with the
destination path, and only a finish event of the destination stream can
have settled it: the events before the finish left the promise
pending. -/
theorem zipDir_resolves_only_after_finish (o : String) (evs : List ZipEvent)
    (v : String) (h : runEvents o evs = PromiseState.resolved v) :
    v = o ∧ ∃ pre suf, evs = pre ++ ZipEvent.finish :: suf ∧
      runEvents o pre = PromiseState.pending := by
  induction evs with
  | nil => exact absurd h (by simp [runEvents])
  | cons e rest ih =>
    cases e with
    | entry x =>
      have h2 : runEvents o rest = PromiseState.resolved v := h
      obtain ⟨hv, pre, suf, heq, hpre⟩ := ih h2
      exact ⟨hv, ZipEvent.entry x :: pre, suf, by rw [heq]; rfl, hpre⟩
    | warning err =>
      exfalso
      have habs : runEvents o (ZipEvent.warning err :: rest) =
          PromiseState.rejected err := by
        show rest.foldl (handleEvent o) (PromiseState.rejected err) = _
        exact foldl_handleEvent_settled o _ (by simp) rest
      rw [h] at habs
      exact PromiseState.noConfusion habs
    | error err =>
      exfalso
      have habs : runEvents o (ZipEvent.error err :: rest) =
          PromiseState.rejected err := by
        show rest.foldl (handleEvent o) (PromiseState.rejected err) = _
        exact foldl_handleEvent_settled o _ (by simp) rest
      rw [h] at habs
      exact PromiseState.noConfusion habs
    | finish =>
      have hres : runEvents o (ZipEvent.finish :: rest) =
          PromiseState.resolved o := by
        show rest.foldl (handleEvent o) (PromiseState.resolved o) = _
        exact foldl_handleEvent_settled o _ (by simp) rest
      have hv : v = o := by
        have h3 := h.symm.trans hres
        injection h3
      exact ⟨hv, [], rest, rfl, rfl⟩

/-- C7 witness: a concrete run that resolved did so with the destination
path, with a finish event and a pending prefix before it. -/
theorem zipDir_resolves_only_after_finish_witness :
    "/out.zip" = "/out.zip" ∧ ∃ pre suf,
      [ZipEvent.entry { name := "index.js" }, ZipEvent.finish] =
        pre ++ ZipEvent.finish :: suf ∧
      runEvents "/out.zip" pre = PromiseState.pending :=
  zipDir_resolves_only_after_finish "/out.zip"
    [ZipEvent.entry { name := "index.js" }, ZipEvent.finish] "/out.zip" rfl

/-- C2 counterexample: on a filesystem where the source directory is
absent, the failure of zipDir is a synchronous exception
(`ZipSyncResult.thrown`, util.ts line 50) escaping before any promise
exists — it is not delivered by rejecting a promise, refuting the claim
that every failure rejects the single outstanding promise. -/
theorem zipDir_missing_dir_throws_before_promise :
    (zipDirSync { files := [], dirs := [] } "/src" "/out.zip").2 =
      ZipSyncResult.thrown "Unable to find /src" ∧
    (match (zipDirSync { files := [], dirs := [] } "/src" "/out.zip").2 with
      | ZipSyncResult.thrown _ => true
      | _ => false) = true :=
  ⟨rfl, rfl⟩

/-- C2 (amended): once the source directory exists, no failure is a
synchronous throw; an exception inside the promise executor (such as an
unreadable ignore file) rejects the promise with that error; warning and
error events reject the pending promise; and no retry is performed — a
settled promise never changes on any later event. -/
theorem zipDir_failure_channels (fs : FS) (d o : String)
    (hd : fs.existsSync d = true) :
    (∀ msg, (zipDirSync fs d o).2 ≠ ZipSyncResult.thrown msg) ∧
    (∀ err, fs.existsSync (gcloudIgnorePath d) = true →
      fs.readFileSync (gcloudIgnorePath d) = Except.error err →
      (zipDirSync fs d o).2 = ZipSyncResult.rejectedInExecutor err) ∧
    (∀ st ev, st ≠ PromiseState.pending → handleEvent o st ev = st) ∧
    (∀ e, handleEvent o PromiseState.pending (ZipEvent.warning e) =
        PromiseState.rejected e ∧
      handleEvent o PromiseState.pending (ZipEvent.error e) =
        PromiseState.rejected e) := by
  refine ⟨?_, ?_, ?_, fun e => ⟨rfl, rfl⟩⟩
  · intro msg
    unfold zipDirSync
    rw [if_neg (by simp [hd])]
    cases hg : getGcloudIgnores fs d with
    | error e => simp [hg]
    | ok rules =>
      by_cases hlen : 0 < rules.length
      · simp [hg, hlen]
      · simp [hg, hlen]
  · intro err hex hread
    have hg : getGcloudIgnores fs d = Except.error err := by
      simp [getGcloudIgnores, getGcloudIgnoresT, hex, hread]
    unfold zipDirSync
    rw [if_neg (by simp [hd])]
    simp [hg]
  · intro st ev hst
    cases st with
    | pending => exact absurd rfl hst
    | resolved v => rfl
    | rejected e => rfl

/-- C2 witness: a concrete filesystem where `.gcloudignore` exists but
is unreadable (it is a directory): the pack promise is rejected with the
read error. -/
theorem zipDir_failure_channels_witness :
    (zipDirSync ⟨[], ["/w", "/w/.gcloudignore"]⟩ "/w" "/z.zip").2 =
      ZipSyncResult.rejectedInExecutor
        "EISDIR/ENOENT: could not read /w/.gcloudignore" :=
  (zipDir_failure_channels ⟨[], ["/w", "/w/.gcloudignore"]⟩ "/w" "/z.zip"
    rfl).2.1 "EISDIR/ENOENT: could not read /w/.gcloudignore" rfl rfl

/-- C3: when the source directory does not exist, zipDir fails
immediately with an error naming the missing directory, and its effect
trace is the single existence probe — in particular no write stream to
the destination is ever created, so the destination is neither created
nor modified. -/
theorem zipDir_missing_dir_no_dest_io (fs : FS) (d o : String)
    (h : fs.existsSync d = false) :
    (zipDirSync fs d o).1 = [FSEffect.existsCheck d] ∧
    (zipDirSync fs d o).2 = ZipSyncResult.thrown ("Unable to find " ++ d) ∧
    FSEffect.createWriteStream o ∉ (zipDirSync fs d o).1 := by
  unfold zipDirSync
  rw [if_pos h]
  refine ⟨rfl, rfl, ?_⟩
  simp

/-- C3 witness: at a concrete missing directory, the trace is only the
probe and the result the thrown error. -/
theorem zipDir_missing_dir_no_dest_io_witness :
    (zipDirSync ⟨[], []⟩ "/fn" "/o.zip").1 = [FSEffect.existsCheck "/fn"] ∧
    (zipDirSync ⟨[], []⟩ "/fn" "/o.zip").2 =
      ZipSyncResult.thrown ("Unable to find " ++ "/fn") ∧
    FSEffect.createWriteStream "/o.zip" ∉ (zipDirSync ⟨[], []⟩ "/fn" "/o.zip").1 :=
  zipDir_missing_dir_no_dest_io ⟨[], []⟩ "/fn" "/o.zip" rfl

/-- C4 counterexample: on a filesystem where `.gcloudignore` exists with
a non-empty pattern, one pack call reads the ignore file twice (zipDir
calls getGcloudIgnores at util.ts line 74 and again at line 75),
refuting the claim that the ignore file is never read more than once per
pack call. -/
theorem zipDir_reads_ignore_file_twice :
    countReads (zipDirSync
      ⟨[("/fn/.gcloudignore", "node_modules")], ["/fn"]⟩ "/fn" "/out.zip").1 = 2 :=
  rfl

/-- C4 (amended): each getGcloudIgnores call performs at most one
synchronous read, and only of the ignore file at the source directory
root; but a pack call may invoke it twice, so the ignore file is read at
most twice (not at most once) per pack call. -/
theorem ignore_reads_bounded (fs : FS) (d o dir : String) :
    countReads (getGcloudIgnoresT fs dir).1 ≤ 1 ∧
    ((getGcloudIgnoresT fs dir).1.all (fun e =>
      match e with
      | FSEffect.readFile p => p == gcloudIgnorePath dir
      | _ => true)) = true ∧
    countReads (zipDirSync fs d o).1 ≤ 2 := by
  have h1 := countReads_getGcloudIgnoresT fs d
  refine ⟨countReads_getGcloudIgnoresT fs dir, ?_, ?_⟩
  · simp only [getGcloudIgnoresT]
    split
    · simp
    · split <;> simp
  · unfold zipDirSync
    split
    · simp [countReads]
    · have hpre : countReads
          [FSEffect.existsCheck d, FSEffect.createWriteStream o] = 0 := rfl
      have hsuf : countReads
          [FSEffect.archiveDirectory d, FSEffect.finalizeArchive] = 0 := rfl
      cases hg : getGcloudIgnores fs d with
      | error e =>
        simp only [hg, countReads_append]
        omega
      | ok rules =>
        by_cases hlen : 0 < rules.length
        · simp only [hg, if_pos hlen, countReads_append]
          omega
        · simp only [hg, if_neg hlen, countReads_append]
          omega

/-- C4 witness for the amended bound at a concrete input. -/
theorem ignore_reads_bounded_witness :
    countReads (zipDirSync ⟨[("/d/.gcloudignore", "x")], ["/d"]⟩
      "/d" "/a.zip").1 ≤ 2 :=
  (ignore_reads_bounded ⟨[("/d/.gcloudignore", "x")], ["/d"]⟩
    "/d" "/a.zip" "/d").2.2

/-- C1: with the source directory present and the loaded rule set
`rules`, zipDir installs no filter when `rules` is empty (every entry is
included) and installs the filter capturing `rules` when it is
non-empty; the filter includes an entry name exactly when the gitignore
engine does not ignore it. The gitignore semantics hold on the spec's
examples: under `["*.log", "!keep.log"]` the negation re-includes
keep.log while other.log stays excluded; the directory-only pattern
`node_modules/` excludes the nested file node_modules/dep/a.js; the
root-anchored pattern `/index.js` excludes the top-level index.js but
not sub/index.js. -/
theorem zipDir_filter_gitignore (fs : FS) (d o : String) (rules : List String)
    (hd : fs.existsSync d = true)
    (hr : getGcloudIgnores fs d = Except.ok rules) :
    (rules = [] → (zipDirSync fs d o).2 =
      ZipSyncResult.promised { outputPath := o, rules := none }) ∧
    (rules ≠ [] → (zipDirSync fs d o).2 =
      ZipSyncResult.promised { outputPath := o, rules := some rules }) ∧
    (∀ rs name, filterIncludes (some rs) name = !(ignores rs name)) ∧
    (∀ name, filterIncludes none name = true) ∧
    ignores ["*.log", "!keep.log"] "keep.log" = false ∧
    ignores ["*.log", "!keep.log"] "other.log" = true ∧
    ignores ["node_modules/"] "node_modules/dep/a.js" = true ∧
    ignores ["/index.js"] "index.js" = true ∧
    ignores ["/index.js"] "sub/index.js" = false := by
  refine ⟨?_, ?_, fun rs name => rfl, fun name => rfl,
    by decide, by decide, by decide, by decide, by decide⟩
  · intro hnil
    subst hnil
    unfold zipDirSync
    rw [if_neg (by simp [hd])]
    simp [hr]
  · intro hne
    have hlen : 0 < rules.length := List.length_pos.mpr hne
    unfold zipDirSync
    rw [if_neg (by simp [hd])]
    simp [hr, hlen]

/-- C1 witness: with a concrete `.gcloudignore` holding the two example
rules, the promise setup captures exactly those rules, and the installed
filter includes keep.log while excluding other.log. -/
theorem zipDir_filter_gitignore_witness :
    (zipDirSync ⟨[("/src/.gcloudignore", "*.log\n!keep.log")], ["/src"]⟩
        "/src" "/out.zip").2 =
      ZipSyncResult.promised
        { outputPath := "/out.zip", rules := some ["*.log", "!keep.log"] } ∧
    filterIncludes (some ["*.log", "!keep.log"]) "keep.log" = true ∧
    filterIncludes (some ["*.log", "!keep.log"]) "other.log" = false := by
  have h := zipDir_filter_gitignore
    ⟨[("/src/.gcloudignore", "*.log\n!keep.log")], ["/src"]⟩ "/src" "/out.zip"
    ["*.log", "!keep.log"] rfl rfl
  exact ⟨h.2.1 (by decide), by decide, by decide⟩

/-- C6 witness: the default rendering at a concrete name. -/
theorem formatEntry_defaults_witness :
    formatEntry ⟨"index.js", none, none, none⟩ =
      "[U] (000) " ++ "index.js" ++ " => unknown" :=
  formatEntry_defaults.1 "index.js"

/-- C5: getGcloudIgnores returns `ok []` when the ignore file does not
exist (success, not an error); when it exists and is readable with
contents `content`, the result is the ordered list of the
newline-delimited lines of `content`, each trimmed — same number of
entries as lines, and every returned string has no leading or trailing
whitespace character. -/
theorem getGcloudIgnores_contract (fs : FS) (dir : String) :
    (fs.existsSync (gcloudIgnorePath dir) = false →
      getGcloudIgnores fs dir = Except.ok []) ∧
    (∀ content, fs.existsSync (gcloudIgnorePath dir) = true →
      fs.readFileSync (gcloudIgnorePath dir) = Except.ok content →
      getGcloudIgnores fs dir = Except.ok ((splitRN content).map jsTrim) ∧
      ((splitRN content).map jsTrim).length = (splitRN content).length ∧
      ∀ s ∈ (splitRN content).map jsTrim,
        (∀ a, s.data.head? = some a → jsIsSpace a = false) ∧
        (∀ a, s.data.getLast? = some a → jsIsSpace a = false)) := by
  constructor
  · intro h
    simp [getGcloudIgnores, getGcloudIgnoresT, h]
  · intro content hex hread
    refine ⟨?_, List.length_map _ _, ?_⟩
    · simp [getGcloudIgnores, getGcloudIgnoresT, hex, hread]
    · intro s hs
      obtain ⟨l, hl, rfl⟩ := List.mem_map.mp hs
      exact ⟨fun a ha => jsTrim_head_not_space l a ha,
        fun a ha => jsTrim_getLast_not_space l a ha⟩

/-- C5 witness: a present file with lines needing trimming and a CRLF
separator, and an absent file. -/
theorem getGcloudIgnores_contract_witness :
    getGcloudIgnores ⟨[("/d/.gcloudignore", " a \r\nb\n")], ["/d"]⟩ "/d" =
      Except.ok ["a", "b", ""] ∧
    getGcloudIgnores ⟨[], ["/d"]⟩ "/d" = Except.ok [] := by
  constructor
  · have h := (getGcloudIgnores_contract
      ⟨[("/d/.gcloudignore", " a \r\nb\n")], ["/d"]⟩ "/d").2 " a \r\nb\n" rfl rfl
    rw [h.1]
    rfl
  · exact (getGcloudIgnores_contract ⟨[], ["/d"]⟩ "/d").1 rfl

/-- C9: an ignore file whose content consists only of whitespace
characters (blank or whitespace-only lines, including a trailing
newline) yields a non-empty rule list every entry of which is the empty
string — blank lines are trimmed but never dropped — so zipDir still
treats the rule set as non-empty and installs a filter even though no
effective pattern exists. -/
theorem blank_ignore_file_still_filters (fs : FS) (dir o content : String)
    (hd : fs.existsSync dir = true)
    (hfile : fs.files.lookup (gcloudIgnorePath dir) = some content)
    (hblank : ∀ c ∈ content.data, jsIsSpace c = true) :
    ∃ rules, getGcloudIgnores fs dir = Except.ok rules ∧
      rules ≠ [] ∧ (∀ r ∈ rules, r = "") ∧
      (zipDirSync fs dir o).2 =
        ZipSyncResult.promised { outputPath := o, rules := some rules } := by
  have hex : fs.existsSync (gcloudIgnorePath dir) = true := by
    simp [FS.existsSync, hfile]
  have hread : fs.readFileSync (gcloudIgnorePath dir) = Except.ok content := by
    simp [FS.readFileSync, hfile]
  have hg : getGcloudIgnores fs dir = Except.ok ((splitRN content).map jsTrim) := by
    simp [getGcloudIgnores, getGcloudIgnoresT, hex, hread]
  have hsplit : splitRN content ≠ [] := by
    unfold splitRN
    intro h3
    exact splitNL_ne_nil content.data (List.map_eq_nil_iff.mp h3)
  refine ⟨(splitRN content).map jsTrim, hg, ?_, ?_, ?_⟩
  · intro hnil
    exact hsplit (List.map_eq_nil_iff.mp hnil)
  · intro r hr
    obtain ⟨l, hl, rfl⟩ := List.mem_map.mp hr
    simp only [splitRN] at hl
    obtain ⟨piece, hp, rfl⟩ := List.mem_map.mp hl
    exact jsTrim_all_space (dropTrailingCR piece)
      (dropTrailingCR_all jsIsSpace piece
        (mem_splitNL_all jsIsSpace content.data hblank piece hp))
  · have hlen : 0 < (splitRN content).length := List.length_pos.mpr hsplit
    unfold zipDirSync
    rw [if_neg (by simp [hd])]
    simp [hg, hlen]

/-- C9 witness: a concrete ignore file containing one whitespace line
and a trailing newline. -/
theorem blank_ignore_file_still_filters_witness :
    ∃ rules, getGcloudIgnores ⟨[("/b/.gcloudignore", " \n")], ["/b"]⟩ "/b" =
        Except.ok rules ∧ rules ≠ [] ∧ (∀ r ∈ rules, r = "") ∧
      (zipDirSync ⟨[("/b/.gcloudignore", " \n")], ["/b"]⟩ "/b" "/b.zip").2 =
        ZipSyncResult.promised { outputPath := "/b.zip", rules := some rules } :=
  blank_ignore_file_still_filters ⟨[("/b/.gcloudignore", " \n")], ["/b"]⟩
    "/b" "/b.zip" " \n" rfl rfl (by decide)

end GCF
